import Mathlib

/-!
Verification development for the ollama-tui repository.

Strings from the Go source are modelled as `List Char`; machine ints as
`Int`/`Nat`. Streaming HTTP bodies are modelled as lists of already
line-split (and, where the Go code JSON-decodes a line, already decoded)
line values, with cancellation of the Go context modelled as the index of
the loop iteration at which `ctx.Done()` becomes ready. Log-file writing,
terminal-widget internals (lists, viewport, spinner, textarea editing) and
the actual HTTP transport are elided: they do not affect any field the
claims speak about.
-/

/-! ## Text wrapping (pkg/utils/text.go) -/

/-- Whitespace test used by Go `strings.Fields` (`unicode.IsSpace`),
restricted to the ASCII range. -/
def isWS (c : Char) : Bool :=
  c = ' ' || c = '\t' || c = '\n' || c = '\x0b' || c = '\x0c' || c = '\r'

/-- Accumulator form of Go `strings.Fields`: split around maximal runs of
whitespace, discarding empty fields. `cur` is the word being built. -/
def goFieldsAux (cur : List Char) : List Char → List (List Char)
  | [] => if cur = [] then [] else [cur]
  | c :: cs =>
      if isWS c then
        if cur = [] then goFieldsAux [] cs else cur :: goFieldsAux [] cs
      else goFieldsAux (cur ++ [c]) cs

/-- Embedding of Go `strings.Fields`. -/
def goFields (s : List Char) : List (List Char) :=
  goFieldsAux [] s

/-- Embedding of Go `strings.Split(text, "\n")`. -/
def splitLines : List Char → List (List Char)
  | [] => [[]]
  | c :: cs =>
      match splitLines cs with
      | [] => [[]]
      | h :: t => if c = '\n' then [] :: h :: t else (c :: h) :: t

/-- Embedding of Go `strings.Join(lines, "\n")`. -/
def joinLines : List (List Char) → List Char
  | [] => []
  | [l] => l
  | l :: l2 :: ls => l ++ '\n' :: joinLines (l2 :: ls)

/-- The word-packing loop of `utils.WrapText` (text.go lines 28-45).
In the source `currentWidth` always equals `len(currentLine)` (both are
initialised from `words[0]` and updated in lockstep), so the width counter
is expressed here as `currentLine.length`. -/
def wrapWords (width : Int) : List Char → List (List Char) → List (List Char)
  | currentLine, [] => if currentLine = [] then [] else [currentLine]
  | currentLine, word :: ws =>
      if (currentLine.length : Int) + 1 + (word.length : Int) > width then
        currentLine :: wrapWords width word ws
      else
        wrapWords width (currentLine ++ ' ' :: word) ws

/-- Per-input-line behaviour of `utils.WrapText` (text.go lines 16-46):
a line short enough is kept verbatim, an all-whitespace long line becomes
one empty line, otherwise the words are re-packed. -/
def wrapLine (width : Int) (line : List Char) : List (List Char) :=
  if (line.length : Int) ≤ width then [line]
  else
    match goFields line with
    | [] => [[]]
    | w :: ws => wrapWords width w ws

/-- Embedding of `utils.WrapText` (text.go lines 8-49). -/
def WrapText (text : List Char) (width : Int) : List Char :=
  if width ≤ 10 then text
  else joinLines ((splitLines text).flatMap (wrapLine width))

/-- Embedding of Go `strings.TrimSpace`: strip leading and trailing
whitespace. -/
def goTrimSpace (s : String) : String :=
  ⟨((s.data.dropWhile (fun c => isWS c)).reverse.dropWhile (fun c => isWS c)).reverse⟩

/-! ## Streaming generation (pkg/api/client.go)

A fragment delivered through the callback is a pair `(text, done)`; the
trace of a run is the list of callback invocations in order. -/

/-- Whether `ctx.Done()` is ready at loop iteration `i` (0-based): the
context was cancelled at some iteration index `k ≤ i`.  `none` means the
session is never cancelled. -/
def cancelledAt (cancelAt : Option Nat) (i : Nat) : Bool :=
  match cancelAt with
  | some k => decide (k ≤ i)
  | none => false

/-- One scanned line of the Ollama `/api/generate` body, after the
processing the loop body applies to it: `blank` is an empty line
(client.go line 288), `malformed` is a line `json.Unmarshal` rejects
(line 293), `ok` is a decoded `models.GenerateResponse`; an absent or
empty JSON `context` field is the empty list (`nil`/empty are treated
identically at line 303). -/
inductive OllamaLine where
  | blank : OllamaLine
  | malformed : OllamaLine
  | ok (response : String) (done : Bool) (ctxVec : List Int) : OllamaLine
deriving DecidableEq

/-- How a generation call ended. -/
inductive SessionOutcome where
  | completed : SessionOutcome
  | cancelled : SessionOutcome
  | failed : SessionOutcome
deriving DecidableEq

/-- Result of one local-generator call: the callback trace, the client's
`context` field after the call, whether a non-nil error was returned, and
how the session ended. -/
structure OllamaResult where
  trace : List (String × Bool)
  ctxAfter : List Int
  isErr : Bool
  outcome : SessionOutcome
deriving DecidableEq

/-- The scan loop of `Client.GenerateResponse` (client.go lines 281-321):
`i` is the loop iteration index, `ctxVec` the client's stored context,
`lines` the lines the scanner still yields, `scanErr` whether
`scanner.Err()` is non-nil once the scanner is exhausted. -/
def runOllama (cancelAt : Option Nat) (scanErr : Bool) :
    Nat → List Int → List OllamaLine → OllamaResult
  | _, ctxVec, [] =>
      if scanErr then ⟨[], ctxVec, true, .failed⟩
      else ⟨[("", true)], ctxVec, false, .completed⟩
  | i, ctxVec, l :: ls =>
      if cancelledAt cancelAt i then ⟨[("", true)], ctxVec, false, .cancelled⟩
      else
        match l with
        | .blank => runOllama cancelAt scanErr (i + 1) ctxVec ls
        | .malformed => runOllama cancelAt scanErr (i + 1) ctxVec ls
        | .ok r d cx =>
            let emitted := if r ≠ "" then [(r, d)] else []
            let ctx2 := if cx ≠ [] then cx else ctxVec
            if d then ⟨emitted ++ [("", true)], ctx2, false, .completed⟩
            else
              let rest := runOllama cancelAt scanErr (i + 1) ctx2 ls
              ⟨emitted ++ rest.trace, rest.ctxAfter, rest.isErr, rest.outcome⟩

/-- One local-generator call as seen from outside: either a failure before
the scan loop starts (marshal / request construction / send, client.go
lines 259-272, which return an error without invoking the callback), or a
streamed body. -/
inductive OllamaCall where
  | preError : OllamaCall
  | stream (cancelAt : Option Nat) (scanErr : Bool) (lines : List OllamaLine) : OllamaCall

/-- `Client.GenerateResponse` on the Ollama path (client.go lines 250-321),
starting from stored context `init`. -/
def generateResponse (init : List Int) : OllamaCall → OllamaResult
  | .preError => ⟨[], init, true, .failed⟩
  | .stream cancelAt scanErr lines => runOllama cancelAt scanErr 0 init lines

/-- A chat message, as in `models.ChatMessage`. -/
structure ChatMessage where
  role : String
  content : String
deriving DecidableEq

/-- One line read from the OpenAI streaming body, after `TrimSpace` and the
dispatch the loop body applies (client.go lines 449-525): `blank` trims to
empty, `doneSentinel` is the literal `data: [DONE]`, `otherLine` lacks the
`data: ` marker, `malformed` fails JSON parsing, `noChoices` parses with an
empty `choices`, `finish` has a non-nil `finish_reason`, `delta c` carries
`choices[0].delta.content = c` (possibly empty, in which case the line is
skipped). -/
inductive ChatLine where
  | blank : ChatLine
  | doneSentinel : ChatLine
  | otherLine : ChatLine
  | malformed : ChatLine
  | noChoices : ChatLine
  | finish : ChatLine
  | delta (content : String) : ChatLine
deriving DecidableEq

/-- Result of one hosted-chat call: callback trace, the client's
`openAIMessages` after the call, the accumulated assistant text, whether a
non-nil error was returned, and how the session ended. -/
structure ChatResult where
  trace : List (String × Bool)
  messages : List ChatMessage
  assistantText : String
  isErr : Bool
  outcome : SessionOutcome
deriving DecidableEq

/-- The history commit performed on the completion paths of
`generateOpenAIResponse` (client.go lines 429-438, 458-467, 499-508):
append the user turn then the assistant turn, but only when some assistant
text accumulated. -/
def commitTurn (msgs : List ChatMessage) (prompt acc : String) : List ChatMessage :=
  if acc.length > 0 then
    msgs ++ [⟨"user", prompt⟩, ⟨"assistant", acc⟩]
  else msgs

/-- The read loop of `Client.generateOpenAIResponse` (client.go lines
416-527): `msgs` is the stored `openAIMessages` at entry (mutated only at
the commit points), `acc` the `assistantResponse` builder, `readErr`
whether the read that ends the stream fails with a non-EOF error. -/
def runOpenAI (prompt : String) (msgs : List ChatMessage)
    (cancelAt : Option Nat) (readErr : Bool) :
    Nat → String → List ChatLine → ChatResult
  | _, acc, [] =>
      if readErr then ⟨[], msgs, acc, true, .failed⟩
      else ⟨[("", true)], commitTurn msgs prompt acc, acc, false, .completed⟩
  | i, acc, l :: ls =>
      if cancelledAt cancelAt i then ⟨[("", true)], msgs, acc, false, .cancelled⟩
      else
        match l with
        | .blank => runOpenAI prompt msgs cancelAt readErr (i + 1) acc ls
        | .otherLine => runOpenAI prompt msgs cancelAt readErr (i + 1) acc ls
        | .malformed => runOpenAI prompt msgs cancelAt readErr (i + 1) acc ls
        | .noChoices => runOpenAI prompt msgs cancelAt readErr (i + 1) acc ls
        | .doneSentinel => ⟨[("", true)], commitTurn msgs prompt acc, acc, false, .completed⟩
        | .finish => ⟨[("", true)], commitTurn msgs prompt acc, acc, false, .completed⟩
        | .delta c =>
            if c ≠ "" then
              let rest := runOpenAI prompt msgs cancelAt readErr (i + 1) (acc ++ c) ls
              ⟨(c, false) :: rest.trace, rest.messages, rest.assistantText,
                rest.isErr, rest.outcome⟩
            else runOpenAI prompt msgs cancelAt readErr (i + 1) acc ls

/-- One hosted-chat call as seen from outside: either a failure before the
read loop (marshal / request construction / send / non-200 status,
client.go lines 367-406, which return an error without invoking the
callback), or a streamed body. -/
inductive ChatCall where
  | preError : ChatCall
  | stream (cancelAt : Option Nat) (readErr : Bool) (lines : List ChatLine) : ChatCall

/-- `Client.generateOpenAIResponse` (client.go lines 325-528), called with
stored history `msgs` and the new user `prompt`. -/
def generateOpenAIResponse (msgs : List ChatMessage) (prompt : String) :
    ChatCall → ChatResult
  | .preError => ⟨[], msgs, "", true, .failed⟩
  | .stream cancelAt readErr lines => runOpenAI prompt msgs cancelAt readErr 0 "" lines

/-- The `generateResponseAsync` wrapper (cmd source, lines 66-71): when the
call returns a non-nil error it invokes the callback once more with
`("", true)`.  This gives the trace observed by the token channel. -/
def asyncTrace (trace : List (String × Bool)) (isErr : Bool) : List (String × Bool) :=
  trace ++ (if isErr then [("", true)] else [])

/-- Number of terminal fragments (`is_final = true`) in a trace. -/
def finalCount (trace : List (String × Bool)) : Nat :=
  (trace.filter (fun f => f.2)).length

/-- Number of synthetic terminal fragments `("", true)` in a trace. -/
def synthCount (trace : List (String × Bool)) : Nat :=
  (trace.filter (fun f => f = ("", true))).length

/-! ## Presentation state machine (pkg/ui/model.go, pkg/ui/update.go)

The embedding keeps every `ui.Model` field the claims speak about.
Widget-internal state (list cursors, textarea editing, viewport scroll,
spinner phase) is elided; messages that only update a widget leave the
embedded model unchanged and return the `widgetSub` command.  The result
of `list.SelectedItem()` is modelled by the `providerSelected` /
`modelSelected` fields, and the environment/config API-key lookup of
update.go lines 69-79 by `envAPIKey`. -/

/-- The `State*` constants of pkg/ui/model.go. -/
inductive UIState where
  | providerSelect : UIState
  | apiKeyInput : UIState
  | modelSelect : UIState
  | prompting : UIState
  | loading : UIState
deriving DecidableEq

/-- Embedding of `ui.Model` (model.go lines 34-55), restricted to the
fields the update logic reads or writes.  `cancelSet` is
`CancelGenerate != nil`; `errSet` is `Err != nil`. -/
structure UIModel where
  state : UIState
  inputValue : String
  apiKeyValue : String
  providerSelected : Option String
  modelSelected : Option String
  envAPIKey : String
  selectedProvider : String
  selectedModel : String
  currentPrompt : String
  currentResponse : String
  inProgressResponse : String
  isGenerating : Bool
  cancelSet : Bool
  responses : List String
  errSet : Bool
  viewportFocused : Bool
  screenWidth : Int
  screenHeight : Int
deriving DecidableEq

/-- The messages `ui.Model.Update` dispatches on.  `key s` is a
`tea.KeyMsg` whose `String()` is `s`; `other` is any message without a
dedicated case (it reaches the trailing widget dispatch). -/
inductive UIMsg where
  | key (s : String) : UIMsg
  | setCancel : UIMsg
  | fetchedModels : UIMsg
  | token (tok : String) (done : Bool) : UIMsg
  | errorMsg : UIMsg
  | windowSize (w h : Int) : UIMsg
  | spinnerTick : UIMsg
  | other : UIMsg
deriving DecidableEq

/-- Commands returned by the update function.  `clearAndResize` is the
clear-screen + window-size batch, `clearResizeFetch` additionally fetches
models, `widgetSub` stands for any command produced by a delegated widget
update. -/
inductive UICmd where
  | none : UICmd
  | quit : UICmd
  | clearAndResize : UICmd
  | clearResizeFetch (provider apiKey : String) : UICmd
  | startGenerate (model prompt : String) : UICmd
  | listenTokens : UICmd
  | clearScreen : UICmd
  | widgetSub : UICmd
deriving DecidableEq

/-- Side effects `Update` performs on collaborators: calling the stored
`CancelGenerate` handle, and `APIClient.ClearContext()`. -/
structure UIEff where
  cancelCalled : Bool
  clearedContext : Bool
deriving DecidableEq

/-- No side effect. -/
def noEff : UIEff := ⟨false, false⟩

/-- `Model.UpdateResponse` (model.go lines 363-372): rewrite the last
transcript entry from the prompt and the wrapped in-progress response. -/
def updateResponseList (responses : List String) (prompt resp : String)
    (screenWidth : Int) : List String :=
  match responses with
  | [] => []
  | _ :: _ =>
      let wrapped :=
        if screenWidth > 10 then
          String.mk (WrapText resp.data (screenWidth - 10))
        else resp
      responses.dropLast ++ ["Prompt: " ++ prompt ++ "\n\nResponse:\n" ++ wrapped]

/-- The transcript entry opened on prompt submission (update.go line 199). -/
def promptEntry (prompt : String) : String :=
  "Prompt: " ++ prompt ++ "\n\nResponse:\n"

/-- Fallthrough of `Update` (update.go lines 329-372): delegate the message
to the widget belonging to the current state.  Widget internals are elided,
so the embedded model is unchanged. -/
def uiDelegate (m : UIModel) : UIModel × UICmd × UIEff :=
  (m, .widgetSub, noEff)

/-- The `tea.KeyMsg` branch of `Update` (update.go lines 20-207). -/
def uiUpdateKey (m : UIModel) (s : String) : UIModel × UICmd × UIEff :=
  if s = "ctrl+c" || s = "esc" then
    let eff : UIEff := ⟨m.isGenerating && m.cancelSet, false⟩
    if m.state = .apiKeyInput then ({ m with state := .providerSelect }, .none, eff)
    else (m, .quit, eff)
  else if s = "tab" then
    if m.state = .prompting then
      ({ m with viewportFocused := !m.viewportFocused }, .none, noEff)
    else uiDelegate m
  else if s = "ctrl+n" then
    if m.state = .prompting then (m, .clearAndResize, ⟨false, true⟩)
    else uiDelegate m
  else if s = "enter" then
    if m.state = .providerSelect then
      match m.providerSelected with
      | some p =>
          let m1 := { m with selectedProvider := p }
          if p = "openai" then
            if m.envAPIKey = "" then
              ({ m1 with state := .apiKeyInput, apiKeyValue := "" }, .clearAndResize, noEff)
            else
              ({ m1 with state := .modelSelect }, .clearResizeFetch p m.envAPIKey, noEff)
          else ({ m1 with state := .modelSelect }, .clearResizeFetch p "", noEff)
      | none => uiDelegate m
    else if m.state = .apiKeyInput then
      let apiKey := goTrimSpace m.apiKeyValue
      if apiKey ≠ "" then
        ({ m with state := .modelSelect }, .clearResizeFetch m.selectedProvider apiKey, noEff)
      else uiDelegate m
    else if m.state = .modelSelect then
      match m.modelSelected with
      | some name =>
          ({ m with selectedModel := name, state := .prompting }, .clearAndResize, noEff)
      | none => uiDelegate m
    else if m.state = .prompting then
      if goTrimSpace m.inputValue ≠ "" then
        ({ m with
            currentPrompt := m.inputValue
            inputValue := ""
            state := .loading
            isGenerating := true
            inProgressResponse := ""
            responses := m.responses ++ [promptEntry m.inputValue] },
          .startGenerate m.selectedModel m.inputValue,
          ⟨m.isGenerating && m.cancelSet, false⟩)
      else uiDelegate m
    else uiDelegate m
  else uiDelegate m

/-- Embedding of `ui.Model.Update` (update.go lines 16-373). -/
def uiUpdate (m : UIModel) : UIMsg → UIModel × UICmd × UIEff
  | .key s => uiUpdateKey m s
  | .setCancel => ({ m with cancelSet := true }, .none, noEff)
  | .fetchedModels => (m, .none, noEff)
  | .token tok done =>
      if done && !m.isGenerating then (m, .none, noEff)
      else
        let ipr := m.inProgressResponse ++ tok
        let rs := updateResponseList m.responses m.currentPrompt ipr m.screenWidth
        if done then
          ({ m with
              inProgressResponse := ipr
              responses := rs
              currentResponse := ipr
              isGenerating := false
              state := .prompting
              cancelSet := false }, .none, noEff)
        else
          ({ m with inProgressResponse := ipr, responses := rs }, .listenTokens, noEff)
  | .errorMsg =>
      ({ m with
          errSet := true
          isGenerating := false
          state := .prompting
          cancelSet := false }, .none, noEff)
  | .windowSize w h =>
      let m1 := { m with screenWidth := w, screenHeight := h }
      if m.state = .providerSelect || m.state = .apiKeyInput || m.state = .modelSelect then
        (m1, .none, noEff)
      else (m1, .clearScreen, noEff)
  | .spinnerTick => (m, .widgetSub, noEff)
  | .other => uiDelegate m

/-! ## Model listing (pkg/api/client.go FetchModels) -/

/-- `models.Model`, restricted to the fields the listing code fills in. -/
structure ModelDesc where
  name : String
  family : String
  format : String
  contextWindow : Int
deriving DecidableEq

/-- `getHardcodedOpenAIModels` (client.go lines 182-221). -/
def getHardcodedOpenAIModels : List ModelDesc :=
  [⟨"gpt-3.5-turbo", "GPT-3.5", "Chat", 4096⟩,
   ⟨"gpt-4", "GPT-4", "Chat", 8192⟩,
   ⟨"gpt-4-turbo", "GPT-4", "Chat", 128000⟩]

/-- Outcome of the OpenAI listing request sequence (client.go lines
63-163): each constructor is one of the early-return conditions, in source
order; `decoded ids` is a successful decode whose `data` carries the given
model IDs. -/
inductive OpenAIListing where
  | reqBuildError : OpenAIListing
  | sendError : OpenAIListing
  | non200 : OpenAIListing
  | bodyReadError : OpenAIListing
  | decodeError : OpenAIListing
  | decoded (ids : List String) : OpenAIListing
deriving DecidableEq

/-- Outcome of the Ollama listing request (client.go lines 166-178). -/
inductive OllamaListing where
  | getError : OllamaListing
  | decodeError : OllamaListing
  | decoded (ms : List ModelDesc) : OllamaListing
deriving DecidableEq

/-- `Client.FetchModels` on the OpenAI path (client.go lines 53-164).
`logOpenFails` models the `os.OpenFile` failure at line 55, which returns
the hardcoded list before reaching the provider dispatch. -/
def fetchModelsOpenAI (logOpenFails : Bool) (o : OpenAIListing) :
    Except Unit (List ModelDesc) :=
  if logOpenFails then .ok getHardcodedOpenAIModels
  else
    match o with
    | .reqBuildError => .ok getHardcodedOpenAIModels
    | .sendError => .ok getHardcodedOpenAIModels
    | .non200 => .ok getHardcodedOpenAIModels
    | .bodyReadError => .ok getHardcodedOpenAIModels
    | .decodeError => .ok getHardcodedOpenAIModels
    | .decoded ids =>
        let result := ids.map (fun id => ModelDesc.mk id "OpenAI" "Chat" 4096)
        if result.length = 0 then .ok getHardcodedOpenAIModels
        else .ok result

/-- `Client.FetchModels` on the Ollama path (client.go lines 53-59 and
166-178): a failed fetch or decode returns a non-nil error and no list. -/
def fetchModelsOllama (logOpenFails : Bool) (o : OllamaListing) :
    Except Unit (List ModelDesc) :=
  if logOpenFails then .ok getHardcodedOpenAIModels
  else
    match o with
    | .getError => .error ()
    | .decodeError => .error ()
    | .decoded ms => .ok ms

/-- Classifies the OpenAI listing outcomes that are fetch/decode failures. -/
def OpenAIListing.isFailure : OpenAIListing → Bool
  | .reqBuildError => true
  | .sendError => true
  | .non200 => true
  | .bodyReadError => true
  | .decodeError => true
  | .decoded _ => false

/-! ## Auxiliary definitions used by the statements -/

/-- A line the wrapper may output: short enough for the width, or a single
whitespace-free word. -/
def wordlike (width : Int) (l : List Char) : Prop :=
  (l.length : Int) ≤ width ∨ ∀ c ∈ l, isWS c = false

/-- A concrete UI model sitting idle at the prompt. -/
def sampleModel : UIModel :=
  { state := .prompting
    inputValue := "hi"
    apiKeyValue := ""
    providerSelected := none
    modelSelected := none
    envAPIKey := ""
    selectedProvider := "ollama"
    selectedModel := "llama3"
    currentPrompt := ""
    currentResponse := ""
    inProgressResponse := ""
    isGenerating := false
    cancelSet := false
    responses := []
    errSet := false
    viewportFocused := false
    screenWidth := 80
    screenHeight := 24 }

/-- A concrete UI model in the middle of a generation session. -/
def loadingModel : UIModel :=
  { sampleModel with
      state := .loading
      inputValue := "second prompt"
      isGenerating := true
      cancelSet := true
      responses := ["Prompt: first\n\nResponse:\n"]
      currentPrompt := "first" }

/-! ## Claims -/

/-- C4 counterexample: on the local-generator stream
`{"response":"Hi","done":false}` then `{"response":"!","done":true,"context":[1,2]}`
the callback is not invoked with exactly the two fragments
`("Hi", false)`, `("!", true)`: a third synthetic `("", true)` follows. -/
theorem c4_counterexample :
    (generateResponse [] (.stream none false
        [.ok "Hi" false [], .ok "!" true [1, 2]])).trace ≠
      [("Hi", false), ("!", true)] := by decide

/-- C4 (amended): decoding that stream emits the fragments `("Hi", false)`,
`("!", true)` and then the synthetic terminal `("", true)`, and leaves the
stored context vector equal to `[1, 2]`. -/
theorem c4_decode_concrete_stream :
    generateResponse [] (.stream none false
        [.ok "Hi" false [], .ok "!" true [1, 2]]) =
      ⟨[("Hi", false), ("!", true), ("", true)], [1, 2], false, .completed⟩ := by decide

/-- C2: a local-generator session that decodes a non-final line carrying a
context vector and is then cancelled has already overwritten the stored
context: starting from context `[7]`, after the line
`{"response":"x","done":false,"context":[5]}` and a cancellation the
session ends `cancelled` yet the stored vector is `[5]`, not `[7]`. -/
theorem c2_cancelled_session_mutated_context :
    (generateResponse [7] (.stream (some 1) false
        [.ok "x" false [5], .ok "y" false []])).outcome = .cancelled ∧
    (generateResponse [7] (.stream (some 1) false
        [.ok "x" false [5], .ok "y" false []])).ctxAfter = [5] := by decide

/-- C7 counterexample: on the Ollama path a failed fetch returns a non-nil
error instead of the built-in fallback list, so a listing failure does
block model selection for that provider. -/
theorem c7_counterexample :
    fetchModelsOllama false .getError = .error () := rfl

/-- C7 (amended): every fetch/decode failure of the OpenAI listing returns
the fixed built-in fallback list with no error; on the Ollama path a
failed fetch or decode returns an error instead. -/
theorem c7_fallback_only_for_openai :
    (∀ (logFails : Bool) (o : OpenAIListing), o.isFailure = true →
        fetchModelsOpenAI logFails o = .ok getHardcodedOpenAIModels) ∧
    (∀ o : OllamaListing, (o = .getError ∨ o = .decodeError) →
        fetchModelsOllama false o = .error ()) := by
  constructor
  · intro logFails o h
    cases logFails <;> cases o <;>
      simp_all [fetchModelsOpenAI, OpenAIListing.isFailure]
  · rintro o (rfl | rfl) <;> rfl

/-- C7 witness: the amended theorem applied to a concrete send failure and
a concrete Ollama fetch failure. -/
theorem c7_witness :
    fetchModelsOpenAI false .sendError = .ok getHardcodedOpenAIModels ∧
    fetchModelsOllama false .getError = .error () :=
  ⟨c7_fallback_only_for_openai.1 false .sendError (by decide),
   c7_fallback_only_for_openai.2 .getError (Or.inl rfl)⟩

/-- C9: a terminal token arriving while no generation is in progress is a
no-op: the model (transcript, in-progress response, state, cancellation
handle) is returned unchanged, with no command and no side effect. -/
theorem c9_terminal_token_without_generation_noop :
    ∀ (m : UIModel) (t : String), m.isGenerating = false →
      uiUpdate m (.token t true) = (m, .none, noEff) := by
  intro m t h
  simp [uiUpdate, h]

/-- C9 witness: the theorem applied to the concrete idle model. -/
theorem c9_witness :
    sampleModel.isGenerating = false ∧
    uiUpdate sampleModel (.token "x" true) = (sampleModel, .none, noEff) :=
  ⟨rfl, c9_terminal_token_without_generation_noop sampleModel "x" rfl⟩

/-- C5 counterexample: with a session still live (`Loading`,
`IsGenerating`, cancel handle set) and a non-blank second prompt in the
input box, pressing enter does not cancel the live session, appends no
transcript entry and starts nothing: the message falls through to the
widget dispatch, so the claimed cancel-then-replace does not happen while
`Loading`. -/
theorem c5_counterexample :
    uiUpdate loadingModel (.key "enter") = (loadingModel, .widgetSub, noEff) := by
  decide

/-- C5 (amended): submitting a non-blank prompt from `Prompting` invokes
the cancel handle exactly when a prior session is live, appends exactly
one new open transcript entry, resets the in-progress response and moves
to `Loading`; while a session is still `Loading`, the enter key does not
submit at all (no cancellation, no new entry, model unchanged). -/
theorem c5_submit_prompt (m : UIModel) :
    (m.state = .prompting → goTrimSpace m.inputValue ≠ "" →
      uiUpdate m (.key "enter") =
        ({ m with
            currentPrompt := m.inputValue
            inputValue := ""
            state := .loading
            isGenerating := true
            inProgressResponse := ""
            responses := m.responses ++ [promptEntry m.inputValue] },
          .startGenerate m.selectedModel m.inputValue,
          ⟨m.isGenerating && m.cancelSet, false⟩)) ∧
    (m.state = .loading →
      uiUpdate m (.key "enter") = (m, .widgetSub, noEff)) := by
  constructor
  · intro hs hne
    simp [uiUpdate, uiUpdateKey, hs, hne]
  · intro hs
    simp [uiUpdate, uiUpdateKey, uiDelegate, hs]

/-- C5 witness: the amended theorem at the concrete idle model (submission
succeeds) and at the concrete loading model (submission ignored). -/
theorem c5_witness :
    uiUpdate sampleModel (.key "enter") =
      ({ sampleModel with
          currentPrompt := "hi"
          inputValue := ""
          state := .loading
          isGenerating := true
          inProgressResponse := ""
          responses := [promptEntry "hi"] },
        .startGenerate "llama3" "hi",
        ⟨false, false⟩) ∧
    uiUpdate loadingModel (.key "enter") = (loadingModel, .widgetSub, noEff) :=
  ⟨(c5_submit_prompt sampleModel).1 rfl (by decide),
   (c5_submit_prompt loadingModel).2 rfl⟩

/-- While `Loading`, no key message changes the embedded model: every key
either falls through to the widget dispatch or (ctrl+c / esc) returns the
model unchanged alongside the quit command. -/
theorem uiUpdateKey_loading_fst (m : UIModel) (s : String)
    (hs : m.state = .loading) : (uiUpdateKey m s).1 = m := by
  unfold uiUpdateKey uiDelegate
  simp [hs]
  split <;> simp

/-- C6: while the state is `Loading`, an update moves the machine to
`Prompting` exactly when the message is a terminal token during generation
or an error message; no other message leaves `Loading`. -/
theorem c6_loading_exits_only_on_terminal_or_error (m : UIModel) (msg : UIMsg)
    (hs : m.state = .loading) :
    ((uiUpdate m msg).1.state = .prompting ↔
      ((∃ t, msg = .token t true) ∧ m.isGenerating = true) ∨ msg = .errorMsg) := by
  cases msg with
  | key s =>
      rw [show uiUpdate m (.key s) = uiUpdateKey m s from rfl,
        uiUpdateKey_loading_fst m s hs, hs]
      simp
  | setCancel => simp [uiUpdate, hs]
  | fetchedModels => simp [uiUpdate, hs]
  | token tok d =>
      cases d with
      | false =>
          cases hg : m.isGenerating <;>
            simp [uiUpdate, hs, hg]
      | true =>
          cases hg : m.isGenerating <;>
            simp [uiUpdate, hs, hg]
  | errorMsg => simp [uiUpdate]
  | windowSize w h => simp [uiUpdate, hs]
  | spinnerTick => simp [uiUpdate, uiDelegate, hs]
  | other => simp [uiUpdate, uiDelegate, hs]

/-- C6 witness: the theorem at the concrete loading model, for an error
message. -/
theorem c6_witness :
    (uiUpdate loadingModel .errorMsg).1.state = .prompting ↔
      ((∃ t, UIMsg.errorMsg = UIMsg.token t true) ∧ loadingModel.isGenerating = true) ∨
        UIMsg.errorMsg = UIMsg.errorMsg :=
  c6_loading_exits_only_on_terminal_or_error loadingModel .errorMsg rfl

/-- Synthetic-terminal count distributes over trace concatenation. -/
theorem synthCount_append (a b : List (String × Bool)) :
    synthCount (a ++ b) = synthCount a + synthCount b := by
  simp [synthCount, List.filter_append]

/-- Terminal count distributes over trace concatenation. -/
theorem finalCount_append (a b : List (String × Bool)) :
    finalCount (a ++ b) = finalCount a + finalCount b := by
  simp [finalCount, List.filter_append]

/-- Over any local-generator scan-loop run, the trace observed through the
async wrapper contains exactly one synthetic `("", true)` fragment and at
most two terminal fragments in total. -/
theorem runOllama_async_counts (cancelAt : Option Nat) (scanErr : Bool) :
    ∀ (ls : List OllamaLine) (i : Nat) (ctxVec : List Int),
      synthCount (asyncTrace (runOllama cancelAt scanErr i ctxVec ls).trace
          (runOllama cancelAt scanErr i ctxVec ls).isErr) = 1 ∧
      finalCount (asyncTrace (runOllama cancelAt scanErr i ctxVec ls).trace
          (runOllama cancelAt scanErr i ctxVec ls).isErr) ≤ 2 := by
  intro ls
  induction ls with
  | nil =>
      intro i ctxVec
      cases scanErr <;> simp [runOllama, asyncTrace, synthCount, finalCount]
  | cons l ls ih =>
      intro i ctxVec
      by_cases hc : cancelledAt cancelAt i = true
      · simp [runOllama, hc, asyncTrace, synthCount, finalCount]
      · rw [Bool.not_eq_true] at hc
        cases l with
        | blank => simpa [runOllama, hc] using ih (i + 1) ctxVec
        | malformed => simpa [runOllama, hc] using ih (i + 1) ctxVec
        | ok r d cx =>
            cases d with
            | true =>
                by_cases hr : r = "" <;>
                  simp [runOllama, hc, hr, asyncTrace, synthCount, finalCount]
            | false =>
                have h := ih (i + 1) (if cx = [] then ctxVec else cx)
                by_cases hr : r = "" <;>
                  simpa [runOllama, hc, hr, asyncTrace, synthCount, finalCount,
                    List.filter_append, List.filter_cons, Prod.mk.injEq] using h

/-- Over any hosted-chat read-loop run, the trace observed through the
async wrapper contains exactly one terminal fragment, and it is the
synthetic `("", true)`. -/
theorem runOpenAI_async_counts (prompt : String) (msgs : List ChatMessage)
    (cancelAt : Option Nat) (readErr : Bool) :
    ∀ (ls : List ChatLine) (i : Nat) (acc : String),
      synthCount (asyncTrace (runOpenAI prompt msgs cancelAt readErr i acc ls).trace
          (runOpenAI prompt msgs cancelAt readErr i acc ls).isErr) = 1 ∧
      finalCount (asyncTrace (runOpenAI prompt msgs cancelAt readErr i acc ls).trace
          (runOpenAI prompt msgs cancelAt readErr i acc ls).isErr) = 1 := by
  intro ls
  induction ls with
  | nil =>
      intro i acc
      cases readErr <;> simp [runOpenAI, asyncTrace, synthCount, finalCount]
  | cons l ls ih =>
      intro i acc
      by_cases hc : cancelledAt cancelAt i = true
      · simp [runOpenAI, hc, asyncTrace, synthCount, finalCount]
      · rw [Bool.not_eq_true] at hc
        cases l with
        | blank => simpa [runOpenAI, hc] using ih (i + 1) acc
        | otherLine => simpa [runOpenAI, hc] using ih (i + 1) acc
        | malformed => simpa [runOpenAI, hc] using ih (i + 1) acc
        | noChoices => simpa [runOpenAI, hc] using ih (i + 1) acc
        | doneSentinel => simp [runOpenAI, hc, asyncTrace, synthCount, finalCount]
        | finish => simp [runOpenAI, hc, asyncTrace, synthCount, finalCount]
        | delta c =>
            by_cases hcc : c = ""
            · simpa [runOpenAI, hc, hcc] using ih (i + 1) acc
            · have h := ih (i + 1) (acc ++ c)
              simpa [runOpenAI, hc, hcc, asyncTrace, synthCount, finalCount,
                List.filter_append, List.filter_cons, Prod.mk.injEq] using h

/-- Over any hosted-chat read-loop run, the stored message history is the
committed turn exactly on the naturally-completed path, and is untouched
on every other path. -/
theorem runOpenAI_messages (prompt : String) (msgs : List ChatMessage)
    (cancelAt : Option Nat) (readErr : Bool) :
    ∀ (ls : List ChatLine) (i : Nat) (acc : String),
      ((runOpenAI prompt msgs cancelAt readErr i acc ls).outcome = .completed →
        (runOpenAI prompt msgs cancelAt readErr i acc ls).messages =
          commitTurn msgs prompt
            (runOpenAI prompt msgs cancelAt readErr i acc ls).assistantText) ∧
      ((runOpenAI prompt msgs cancelAt readErr i acc ls).outcome ≠ .completed →
        (runOpenAI prompt msgs cancelAt readErr i acc ls).messages = msgs) := by
  intro ls
  induction ls with
  | nil =>
      intro i acc
      cases readErr <;> simp [runOpenAI]
  | cons l ls ih =>
      intro i acc
      by_cases hc : cancelledAt cancelAt i = true
      · simp [runOpenAI, hc]
      · rw [Bool.not_eq_true] at hc
        cases l with
        | blank => simpa [runOpenAI, hc] using ih (i + 1) acc
        | otherLine => simpa [runOpenAI, hc] using ih (i + 1) acc
        | malformed => simpa [runOpenAI, hc] using ih (i + 1) acc
        | noChoices => simpa [runOpenAI, hc] using ih (i + 1) acc
        | doneSentinel => simp [runOpenAI, hc]
        | finish => simp [runOpenAI, hc]
        | delta c =>
            by_cases hcc : c = ""
            · simpa [runOpenAI, hc, hcc] using ih (i + 1) acc
            · simpa [runOpenAI, hc, hcc] using ih (i + 1) (acc ++ c)

/-- C1 counterexample: a local-generator stream whose final line carries
nonempty text invokes the callback twice with `is_final = true` — once
with the line's text and once with the synthetic empty fragment — so
"at most once" fails. -/
theorem c1_counterexample :
    finalCount (asyncTrace
      (generateResponse [] (.stream none false [.ok "Hi" true []])).trace
      (generateResponse [] (.stream none false [.ok "Hi" true []])).isErr) = 2 := by
  decide

/-- C1 (amended): per session the callback is invoked with the synthetic
terminal `("", true)` exactly once; on the local-generator path at most
one further terminal invocation can occur (the final line's nonempty text
with `done = true`), for a total of at most two, while the hosted-chat
path and the error wrapper observe exactly one terminal invocation. -/
theorem c1_terminal_fragment_bound :
    (∀ (init : List Int) (call : OllamaCall),
      synthCount (asyncTrace (generateResponse init call).trace
          (generateResponse init call).isErr) = 1 ∧
      finalCount (asyncTrace (generateResponse init call).trace
          (generateResponse init call).isErr) ≤ 2) ∧
    (∀ (msgs : List ChatMessage) (prompt : String) (call : ChatCall),
      finalCount (asyncTrace (generateOpenAIResponse msgs prompt call).trace
          (generateOpenAIResponse msgs prompt call).isErr) = 1) := by
  constructor
  · intro init call
    cases call with
    | preError => simp [generateResponse, asyncTrace, synthCount, finalCount]
    | stream cancelAt scanErr lines =>
        exact runOllama_async_counts cancelAt scanErr lines 0 init
  · intro msgs prompt call
    cases call with
    | preError => simp [generateOpenAIResponse, asyncTrace, synthCount, finalCount]
    | stream cancelAt readErr lines =>
        exact (runOpenAI_async_counts prompt msgs cancelAt readErr lines 0 "").2

/-- C3 counterexample: a hosted-chat session that completes naturally via
the `data: [DONE]` sentinel without having received any content delta
leaves the message history unchanged — it does not grow by 2. -/
theorem c3_counterexample :
    (generateOpenAIResponse [] "p" (.stream none false [.doneSentinel])).outcome =
      .completed ∧
    (generateOpenAIResponse [] "p" (.stream none false [.doneSentinel])).messages =
      [] := by decide

/-- C3 (amended): on natural completion with a nonempty accumulated
assistant response the history grows by exactly the two entries
user-then-assistant; on natural completion with an empty assistant
response, and on every cancelled or failed session, it grows by zero. -/
theorem c3_history_growth (msgs : List ChatMessage) (prompt : String)
    (call : ChatCall) :
    ((generateOpenAIResponse msgs prompt call).outcome = .completed →
      (generateOpenAIResponse msgs prompt call).assistantText.length > 0 →
      (generateOpenAIResponse msgs prompt call).messages =
        msgs ++ [⟨"user", prompt⟩,
          ⟨"assistant", (generateOpenAIResponse msgs prompt call).assistantText⟩]) ∧
    ((generateOpenAIResponse msgs prompt call).outcome = .completed →
      (generateOpenAIResponse msgs prompt call).assistantText.length = 0 →
      (generateOpenAIResponse msgs prompt call).messages = msgs) ∧
    ((generateOpenAIResponse msgs prompt call).outcome ≠ .completed →
      (generateOpenAIResponse msgs prompt call).messages = msgs) := by
  cases call with
  | preError => simp [generateOpenAIResponse]
  | stream cancelAt readErr lines =>
      have h := runOpenAI_messages prompt msgs cancelAt readErr lines 0 ""
      simp only [generateOpenAIResponse]
      refine ⟨fun hco hlen => ?_, fun hco hlen => ?_, fun hnc => h.2 hnc⟩
      · rw [h.1 hco]
        simp [commitTurn, hlen]
      · rw [h.1 hco]
        simp [commitTurn, hlen]

/-- C3 witness: the amended theorem at a concrete completed session with
one content delta, showing the history grows by the user and assistant
entries in order. -/
theorem c3_witness :
    (generateOpenAIResponse [] "p" (.stream none false [.delta "A", .doneSentinel])).messages =
      [⟨"user", "p"⟩, ⟨"assistant", "A"⟩] := by
  have h := (c3_history_growth [] "p" (.stream none false [.delta "A", .doneSentinel])).1
    (by decide) (by decide)
  simpa using h

/-- Every field produced by the accumulator loop is nonempty and
whitespace-free, provided the accumulator is whitespace-free. -/
theorem goFieldsAux_mem :
    ∀ (s cur : List Char), (∀ c ∈ cur, isWS c = false) →
      ∀ w ∈ goFieldsAux cur s, w ≠ [] ∧ ∀ c ∈ w, isWS c = false := by
  intro s
  induction s with
  | nil =>
      intro cur hcur w hw
      by_cases h : cur = []
      · simp [goFieldsAux, h] at hw
      · simp [goFieldsAux, h] at hw
        subst hw
        exact ⟨h, hcur⟩
  | cons c cs ih =>
      intro cur hcur w hw
      by_cases hws : isWS c = true
      · by_cases h : cur = []
        · rw [goFieldsAux] at hw
          simp [hws, h] at hw
          exact ih [] (by simp) w hw
        · rw [goFieldsAux] at hw
          simp [hws, h] at hw
          rcases hw with hw | hw
          · subst hw; exact ⟨h, hcur⟩
          · exact ih [] (by simp) w hw
      · rw [Bool.not_eq_true] at hws
        rw [goFieldsAux] at hw
        simp [hws] at hw
        refine ih (cur ++ [c]) ?_ w hw
        intro x hx
        rcases List.mem_append.mp hx with hx | hx
        · exact hcur x hx
        · simp at hx; subst hx; exact hws

/-- On an all-non-whitespace suffix the accumulator loop returns the single
remaining word. -/
theorem goFieldsAux_all_nonws :
    ∀ (s cur : List Char), (∀ c ∈ s, isWS c = false) →
      goFieldsAux cur s = if cur ++ s = [] then [] else [cur ++ s] := by
  intro s
  induction s with
  | nil => intro cur _; simp [goFieldsAux]
  | cons c cs ih =>
      intro cur h
      have hc : isWS c = false := h c (by simp)
      rw [goFieldsAux]
      simp only [hc, Bool.false_eq_true, if_false]
      rw [ih (cur ++ [c]) (fun x hx => h x (by simp [hx]))]
      simp

/-- A nonempty whitespace-free string is its own single field. -/
theorem goFields_single (s : List Char) (hne : s ≠ [])
    (hws : ∀ c ∈ s, isWS c = false) : goFields s = [s] := by
  simp [goFields, goFieldsAux_all_nonws s [] hws, hne]

/-- `strings.Split` never returns an empty slice. -/
theorem splitLines_ne_nil (s : List Char) : splitLines s ≠ [] := by
  cases s with
  | nil => simp [splitLines]
  | cons c cs =>
      cases h : splitLines cs with
      | nil => simp [splitLines, h]
      | cons hd tl => by_cases hc : c = '\n' <;> simp [splitLines, h, hc]

/-- No element of `splitLines` contains a newline. -/
theorem splitLines_no_nl : ∀ (s : List Char), ∀ l ∈ splitLines s, '\n' ∉ l := by
  intro s
  induction s with
  | nil =>
      intro l hl
      simp [splitLines] at hl
      subst hl; simp
  | cons c cs ih =>
      intro l hl
      cases h : splitLines cs with
      | nil => exact absurd h (splitLines_ne_nil cs)
      | cons hd tl =>
          by_cases hc : c = '\n'
          · rw [splitLines, h] at hl
            simp [hc] at hl
            rcases hl with hl | hl | hl
            · subst hl; simp
            · exact ih l (by rw [h]; simp [hl])
            · exact ih l (by rw [h]; simp [hl])
          · rw [splitLines, h] at hl
            simp [hc] at hl
            rcases hl with hl | hl
            · subst hl
              intro hmem
              rcases List.mem_cons.mp hmem with he | he
              · exact hc he.symm
              · exact ih hd (by rw [h]; simp) he
            · exact ih l (by rw [h]; simp [hl])

/-- A newline-free string splits into itself. -/
theorem splitLines_single (l : List Char) (h : '\n' ∉ l) : splitLines l = [l] := by
  induction l with
  | nil => simp [splitLines]
  | cons c cs ih =>
      have hc : ¬ c = '\n' := fun e => h (by simp [e])
      rw [splitLines, ih (fun hin => h (List.mem_cons_of_mem _ hin))]
      simp [hc]

/-- Splitting after a newline-free head peels it off. -/
theorem splitLines_append_nl (l r : List Char) (h : '\n' ∉ l) :
    splitLines (l ++ '\n' :: r) = l :: splitLines r := by
  induction l with
  | nil =>
      cases hr : splitLines r with
      | nil => exact absurd hr (splitLines_ne_nil r)
      | cons hd tl => simp [splitLines, hr]
  | cons c cs ih =>
      have hc : ¬ c = '\n' := fun e => h (by simp [e])
      have ih2 := ih (fun hin => h (List.mem_cons_of_mem _ hin))
      cases hr : splitLines r with
      | nil => exact absurd hr (splitLines_ne_nil r)
      | cons hd tl =>
          rw [List.cons_append, splitLines, ih2]
          simp [hc]
          exact hr

/-- `splitLines` is a left inverse of `joinLines` on nonempty lists of
newline-free lines. -/
theorem splitLines_joinLines :
    ∀ (ls : List (List Char)), ls ≠ [] → (∀ l ∈ ls, '\n' ∉ l) →
      splitLines (joinLines ls) = ls := by
  intro ls
  induction ls with
  | nil => intro h _; exact absurd rfl h
  | cons l ls ih =>
      intro _ hnl
      cases ls with
      | nil => exact splitLines_single l (hnl l (by simp))
      | cons l2 ls2 =>
          rw [joinLines, splitLines_append_nl l _ (hnl l (by simp)),
            ih (by simp) (fun x hx => hnl x (by simp [hx]))]

/-- The packing loop never returns an empty list of chunks when started
from a nonempty current line. -/
theorem wrapWords_ne_nil (width : Int) :
    ∀ (ws : List (List Char)) (cur : List Char), cur ≠ [] →
      wrapWords width cur ws ≠ [] := by
  intro ws
  induction ws with
  | nil => intro cur h; simp [wrapWords, h]
  | cons w ws ih =>
      intro cur h
      rw [wrapWords]
      by_cases hover : (cur.length : Int) + 1 + (w.length : Int) > width
      · simp [hover]
      · simp only [hover, if_false]
        exact ih (cur ++ ' ' :: w) (by simp)

/-- If the current line and every remaining word fit in the width, every
chunk the packing loop outputs fits in the width. -/
theorem wrapWords_length_le (width : Int) :
    ∀ (ws : List (List Char)) (cur : List Char),
      (cur.length : Int) ≤ width → (∀ w ∈ ws, (w.length : Int) ≤ width) →
      ∀ ch ∈ wrapWords width cur ws, (ch.length : Int) ≤ width := by
  intro ws
  induction ws with
  | nil =>
      intro cur hcur _ ch hch
      by_cases h : cur = []
      · simp [wrapWords, h] at hch
      · simp [wrapWords, h] at hch
        subst hch; exact hcur
  | cons w ws ih =>
      intro cur hcur hws ch hch
      rw [wrapWords] at hch
      by_cases hover : (cur.length : Int) + 1 + (w.length : Int) > width
      · simp only [hover, if_true] at hch
        rcases List.mem_cons.mp hch with hch | hch
        · subst hch; exact hcur
        · exact ih w (hws w (by simp)) (fun x hx => hws x (by simp [hx])) ch hch
      · simp only [hover, if_false] at hch
        refine ih (cur ++ ' ' :: w) ?_ (fun x hx => hws x (by simp [hx])) ch hch
        have : (cur ++ ' ' :: w).length = cur.length + (w.length + 1) := by
          simp [List.length_append]
        rw [this]
        push_cast
        omega

/-- Every chunk the packing loop outputs is `wordlike`: it fits in the
width or is a single whitespace-free word. -/
theorem wrapWords_wordlike (width : Int) :
    ∀ (ws : List (List Char)) (cur : List Char),
      wordlike width cur → (∀ w ∈ ws, ∀ c ∈ w, isWS c = false) →
      ∀ ch ∈ wrapWords width cur ws, wordlike width ch := by
  intro ws
  induction ws with
  | nil =>
      intro cur hcur _ ch hch
      by_cases h : cur = []
      · simp [wrapWords, h] at hch
      · simp [wrapWords, h] at hch
        subst hch; exact hcur
  | cons w ws ih =>
      intro cur hcur hws ch hch
      rw [wrapWords] at hch
      by_cases hover : (cur.length : Int) + 1 + (w.length : Int) > width
      · simp only [hover, if_true] at hch
        rcases List.mem_cons.mp hch with hch | hch
        · subst hch; exact hcur
        · exact ih w (Or.inr (hws w (by simp)))
            (fun x hx => hws x (by simp [hx])) ch hch
      · simp only [hover, if_false] at hch
        refine ih (cur ++ ' ' :: w) (Or.inl ?_)
          (fun x hx => hws x (by simp [hx])) ch hch
        have : (cur ++ ' ' :: w).length = cur.length + (w.length + 1) := by
          simp [List.length_append]
        rw [this]
        push_cast
        omega

/-- The packing loop introduces no newline: chunks consist of characters of
the current line, of the words, and of inserted blanks. -/
theorem wrapWords_no_nl (width : Int) :
    ∀ (ws : List (List Char)) (cur : List Char),
      '\n' ∉ cur → (∀ w ∈ ws, '\n' ∉ w) →
      ∀ ch ∈ wrapWords width cur ws, '\n' ∉ ch := by
  intro ws
  induction ws with
  | nil =>
      intro cur hcur _ ch hch
      by_cases h : cur = []
      · simp [wrapWords, h] at hch
      · simp [wrapWords, h] at hch
        subst hch; exact hcur
  | cons w ws ih =>
      intro cur hcur hws ch hch
      rw [wrapWords] at hch
      by_cases hover : (cur.length : Int) + 1 + (w.length : Int) > width
      · simp only [hover, if_true] at hch
        rcases List.mem_cons.mp hch with hch | hch
        · subst hch; exact hcur
        · exact ih w (hws w (by simp)) (fun x hx => hws x (by simp [hx])) ch hch
      · simp only [hover, if_false] at hch
        refine ih (cur ++ ' ' :: w) ?_ (fun x hx => hws x (by simp [hx])) ch hch
        intro hmem
        rcases List.mem_append.mp hmem with hx | hx
        · exact hcur hx
        · rcases List.mem_cons.mp hx with he | he
          · exact absurd he (by decide)
          · exact hws w (by simp) he

/-- Wrapping a line always produces at least one output line. -/
theorem wrapLine_ne_nil (width : Int) (line : List Char) :
    wrapLine width line ≠ [] := by
  rw [wrapLine]
  by_cases hlen : (line.length : Int) ≤ width
  · simp [hlen]
  · simp only [hlen, if_false]
    cases hf : goFields line with
    | nil => simp
    | cons w ws =>
        have hw : w ≠ [] :=
          (goFieldsAux_mem line [] (by simp) w (by rw [goFields] at hf; rw [hf]; simp)).1
        exact wrapWords_ne_nil width ws w hw

/-- Wrapping a newline-free line produces newline-free output lines. -/
theorem wrapLine_no_nl (width : Int) (line : List Char) (h : '\n' ∉ line) :
    ∀ ch ∈ wrapLine width line, '\n' ∉ ch := by
  intro ch hch
  rw [wrapLine] at hch
  by_cases hlen : (line.length : Int) ≤ width
  · simp [hlen] at hch
    subst hch; exact h
  · simp only [hlen, if_false] at hch
    cases hf : goFields line with
    | nil => rw [hf] at hch; simp at hch; subst hch; simp
    | cons w ws =>
        rw [hf] at hch
        have hmem : ∀ x ∈ goFields line, ∀ c ∈ x, isWS c = false :=
          fun x hx => (goFieldsAux_mem line [] (by simp) x hx).2
        have hnonl : ∀ x : List Char, (∀ c ∈ x, isWS c = false) → '\n' ∉ x := by
          intro x hx hin
          have := hx '\n' hin
          simp [isWS] at this
        exact wrapWords_no_nl width ws w
          (hnonl w (hmem w (by rw [hf]; simp)))
          (fun x hx => hnonl x (hmem x (by rw [hf]; simp [hx]))) ch hch

/-- Every line the wrapper outputs is `wordlike`. -/
theorem wrapLine_wordlike (width : Int) (hw : (0 : Int) ≤ width) (line : List Char) :
    ∀ ch ∈ wrapLine width line, wordlike width ch := by
  intro ch hch
  rw [wrapLine] at hch
  by_cases hlen : (line.length : Int) ≤ width
  · simp [hlen] at hch
    subst hch; exact Or.inl hlen
  · simp only [hlen, if_false] at hch
    cases hf : goFields line with
    | nil =>
        rw [hf] at hch; simp at hch; subst hch
        exact Or.inl (by simp [hw])
    | cons w ws =>
        rw [hf] at hch
        have hmem : ∀ x ∈ goFields line, ∀ c ∈ x, isWS c = false :=
          fun x hx => (goFieldsAux_mem line [] (by simp) x hx).2
        exact wrapWords_wordlike width ws w
          (Or.inr (hmem w (by rw [hf]; simp)))
          (fun x hx => hmem x (by rw [hf]; simp [hx])) ch hch

/-- Under the per-word width bound, every line the wrapper outputs fits in
the width. -/
theorem wrapLine_length_le (width : Int) (hw : (0 : Int) ≤ width)
    (line : List Char)
    (hwords : ∀ w ∈ goFields line, (w.length : Int) ≤ width) :
    ∀ out ∈ wrapLine width line, (out.length : Int) ≤ width := by
  intro out hout
  rw [wrapLine] at hout
  by_cases hlen : (line.length : Int) ≤ width
  · simp [hlen] at hout
    subst hout; exact hlen
  · simp only [hlen, if_false] at hout
    cases hf : goFields line with
    | nil => rw [hf] at hout; simp at hout; subst hout; simp [hw]
    | cons w ws =>
        rw [hf] at hout
        exact wrapWords_length_le width ws w
          (hwords w (by rw [hf]; simp))
          (fun x hx => hwords x (by rw [hf]; simp [hx])) out hout

/-- A `wordlike` line passes through the wrapper unchanged: it is either
short enough to be kept verbatim, or a single unbreakable word. -/
theorem wrapLine_fixed (width : Int) (hw : 10 < width) (ch : List Char)
    (hword : wordlike width ch) : wrapLine width ch = [ch] := by
  rw [wrapLine]
  by_cases hlen : (ch.length : Int) ≤ width
  · simp [hlen]
  · have hws : ∀ c ∈ ch, isWS c = false := hword.resolve_left hlen
    have hne : ch ≠ [] := by
      intro e
      subst e
      simp at hlen
      omega
    simp only [hlen, if_false]
    rw [goFields_single ch hne hws]
    simp [wrapWords, hne]

/-- The full list of output lines of a wrap pass is nonempty. -/
theorem wrapChunks_ne_nil (width : Int) (t : List Char) :
    (splitLines t).flatMap (wrapLine width) ≠ [] := by
  cases h0 : splitLines t with
  | nil => exact absurd h0 (splitLines_ne_nil t)
  | cons l ls =>
      simp only [List.flatMap_cons]
      intro he
      exact wrapLine_ne_nil width l (List.append_eq_nil.mp he).1

/-- No output line of a wrap pass contains a newline. -/
theorem wrapChunks_no_nl (width : Int) (t : List Char) :
    ∀ ch ∈ (splitLines t).flatMap (wrapLine width), '\n' ∉ ch := by
  intro ch hc
  rcases List.mem_flatMap.mp hc with ⟨line, hline, hcin⟩
  exact wrapLine_no_nl width line (splitLines_no_nl t line hline) ch hcin

/-- Flat-mapping a function that is the singleton on every element is the
identity. -/
theorem flatMap_singleton_of_mem {α : Type} :
    ∀ (l : List α) (f : α → List α), (∀ x ∈ l, f x = [x]) → l.flatMap f = l := by
  intro l f
  induction l with
  | nil => intro _; simp
  | cons a as ih =>
      intro h
      rw [List.flatMap_cons, h a (by simp), ih (fun x hx => h x (by simp [hx]))]
      rfl

/-- C8: `WrapText` returns its input unchanged for `width ≤ 10`, and for
`width > 10`, if every word of the input is no longer than the width, no
output line is longer than the width. -/
theorem c8_wrap_noop_and_bound (t : List Char) (w : Int) :
    (w ≤ 10 → WrapText t w = t) ∧
    (10 < w →
      (∀ line ∈ splitLines t, ∀ word ∈ goFields line, (word.length : Int) ≤ w) →
      ∀ out ∈ splitLines (WrapText t w), (out.length : Int) ≤ w) := by
  constructor
  · intro h
    simp [WrapText, h]
  · intro hw hwords out hout
    have hnot : ¬ w ≤ 10 := by omega
    rw [WrapText, if_neg hnot,
      splitLines_joinLines _ (wrapChunks_ne_nil w t) (wrapChunks_no_nl w t)] at hout
    rcases List.mem_flatMap.mp hout with ⟨line, hline, hcin⟩
    exact wrapLine_length_le w (by omega) line (hwords line hline) out hcin

/-- C8 witness: the theorem at a width below the threshold (identity) and
at width 12 on a three-word input, checking the bound on a concrete output
line. -/
theorem c8_witness :
    WrapText "hello world".data 5 = "hello world".data ∧
    "hello world".data ∈ splitLines (WrapText "hello world again".data 12) ∧
    (("hello world".data.length : Int) ≤ 12) :=
  ⟨(c8_wrap_noop_and_bound "hello world".data 5).1 (by norm_num),
   by decide,
   (c8_wrap_noop_and_bound "hello world again".data 12).2 (by norm_num)
     (by decide) "hello world".data (by decide)⟩

/-- C10: `WrapText` is idempotent at every width: each output line is
either short enough to be kept verbatim by a second pass or is a single
unbreakable word, so re-wrapping changes nothing. -/
theorem c10_wrap_idempotent (t : List Char) (w : Int) :
    WrapText (WrapText t w) w = WrapText t w := by
  by_cases h : w ≤ 10
  · simp [WrapText, h]
  · have hw : 10 < w := by omega
    rw [WrapText, if_neg h]
    rw [WrapText, if_neg h,
      splitLines_joinLines _ (wrapChunks_ne_nil w t) (wrapChunks_no_nl w t)]
    rw [flatMap_singleton_of_mem _ _ (fun ch hch => wrapLine_fixed w hw ch ?_)]
    rcases List.mem_flatMap.mp hch with ⟨line, hline, hcin⟩
    exact wrapLine_wordlike w (by omega) line ch hcin
